import Mathlib

/-!
# Verification of the 3D image classification preprocessing pipeline

Shallow embedding of the preprocessing code of
`src/examples/vision/ipynb/3D_image_classification.ipynb`:

* the volume pipeline (`normalize`, `resize_volume`, `process_scan`,
  the `rotate` augmentation, the train/validation split), and
* the frame-sequence pipeline (`is_completely_black`, `temp_series`).

Volumes are modelled as total functions from voxel indices to rational
intensities together with an explicit shape; frames are nested lists of
natural-number pixel intensities.  Library calls (`ndimage.rotate`,
`ndimage.zoom`) that are not part of the repository are modelled from the
spec, as documented on each such definition.
-/

namespace NB

/-- A 3-dimensional array of intensities: a shape `(w, h, d)` (axes 0, 1, 2
of the numpy array) and a value at every voxel index.  Indices outside the
shape carry arbitrary values that no predicate below inspects. -/
structure Volume where
  w : ℕ
  h : ℕ
  d : ℕ
  val : ℕ → ℕ → ℕ → ℚ

/-- All in-range voxels of `v` have values in the interval `[lo, hi]`. -/
def Volume.InRange (v : Volume) (lo hi : ℚ) : Prop :=
  ∀ i < v.w, ∀ j < v.h, ∀ k < v.d,
    lo ≤ v.val i j k ∧ v.val i j k ≤ hi

instance (v : Volume) (lo hi : ℚ) : Decidable (v.InRange lo hi) := by
  unfold Volume.InRange; infer_instance

/-- The two volumes have the same shape on all three axes. -/
def Volume.SameShape (u v : Volume) : Prop :=
  u.w = v.w ∧ u.h = v.h ∧ u.d = v.d

/-! ## Normalization (`normalize`)

```python
def normalize(volume):
    min = -1000
    max = 400
    volume[volume < min] = min
    volume[volume > max] = max
    volume = (volume - min) / (max - min)
    volume = volume.astype("float32")
    return volume
```

The elementwise action with the clip bounds as parameters; the source fixes
them to `min = -1000`, `max = 400`. -/

/-- Elementwise clip to `[mn, mx]` followed by the linear rescale
`(x - mn) / (mx - mn)`, exactly as the three numpy statements act on one
entry. -/
def normElemWith (mn mx x : ℚ) : ℚ :=
  ((if (if x < mn then mn else x) > mx then mx else if x < mn then mn else x) - mn)
    / (mx - mn)

/-- The elementwise action of the source's `normalize`, with its hardcoded
bounds `min = -1000` and `max = 400`. -/
def normElem (x : ℚ) : ℚ :=
  normElemWith (-1000) 400 x

/-- `normalize` with the clip bounds as explicit parameters, applied to every
entry of the volume. -/
def normalizeWith (mn mx : ℚ) (v : Volume) : Volume :=
  { v with val := fun i j k => normElemWith mn mx (v.val i j k) }

/-- The source's `normalize`: clip to `[-1000, 400]`, then rescale to
`[0, 1]`. -/
def normalize (v : Volume) : Volume :=
  normalizeWith (-1000) 400 v

lemma normElem_nonneg (x : ℚ) : 0 ≤ normElem x := by
  unfold normElem normElemWith
  split_ifs <;> (apply div_nonneg _ (by norm_num); linarith)

lemma normElem_le_one (x : ℚ) : normElem x ≤ 1 := by
  unfold normElem normElemWith
  split_ifs <;> (rw [div_le_one (by norm_num)]; try linarith)

lemma normElem_of_le_low (x : ℚ) (hx : x ≤ -1000) : normElem x = 0 := by
  unfold normElem normElemWith
  rcases lt_or_eq_of_le hx with h | h
  · simp [h, show ¬ ((-1000 : ℚ) > 400) by norm_num]
  · simp [h, show ¬ ((-1000 : ℚ) < -1000) by norm_num,
      show ¬ ((-1000 : ℚ) > 400) by norm_num]

lemma normElem_of_ge_high (x : ℚ) (hx : 400 ≤ x) : normElem x = 1 := by
  unfold normElem normElemWith
  have h1 : ¬ (x < -1000) := by linarith
  rcases lt_or_eq_of_le hx with h | h
  · simp [h1, h]
    norm_num
  · simp [h1, ← h]
    norm_num

/-! ## Resampling (`resize_volume`)

```python
def resize_volume(img):
    desired_depth = 64
    desired_width = 128
    desired_height = 128
    current_depth = img.shape[-1]
    current_width = img.shape[0]
    current_height = img.shape[1]
    depth = current_depth / desired_depth
    width = current_width / desired_width
    height = current_height / desired_height
    depth_factor = 1 / depth
    width_factor = 1 / width
    height_factor = 1 / height
    img = ndimage.rotate(img, 90, reshape=False)
    img = ndimage.zoom(img, (width_factor, height_factor, depth_factor), order=1)
    return img
```

The two `ndimage` calls are external library code with no source in this
repository; they are modelled from the spec as documented below. -/

/-- Modelled from the spec: `ndimage.rotate(img, 90, reshape=False)`, the
fixed orientation correction within the first two axes.  `reshape=False`
keeps the input shape; a source pixel falling outside the array is the
constant fill `0`. -/
def ndimage_rotate90 (v : Volume) : Volume :=
  { v with val := fun i j k =>
      if i < v.w ∧ j < v.h ∧ j < v.w ∧ v.w - 1 - i < v.h ∧ k < v.d then
        v.val j (v.w - 1 - i) k
      else 0 }

/-- Source coordinate sampled for output index `j` when an axis of `n`
samples is resampled to `m` samples. -/
def sampleCoord (n m j : ℕ) : ℚ :=
  if m ≤ 1 ∨ n ≤ 1 then 0 else (j : ℚ) * ((n : ℚ) - 1) / ((m : ℚ) - 1)

/-- Modelled from the spec: one axis of linear-interpolation resampling
(`ndimage.zoom` with `order=1`).  Each output sample is the convex
combination of the two input samples neighbouring its source coordinate,
with the accessed indices clamped into the valid range (for in-range output
indices the clamp is the identity). -/
def interp1 (n m : ℕ) (f : ℕ → ℚ) (j : ℕ) : ℚ :=
  let c := sampleCoord n m j
  let t := c - (⌊c⌋ : ℚ)
  (1 - t) * f (min (⌊c⌋).toNat (n - 1)) + t * f (min ((⌊c⌋).toNat + 1) (n - 1))

/-- Output length of an axis of `n` samples under zoom factor `f`:
`round(n * f)`, as `ndimage.zoom` computes its output shape. -/
def outDim (n : ℕ) (f : ℚ) : ℕ := (round ((n : ℚ) * f)).toNat

/-- Resample axis 0 (width) to `m` samples. -/
def zoomW (m : ℕ) (v : Volume) : Volume :=
  ⟨m, v.h, v.d, fun i j k => interp1 v.w m (fun a => v.val a j k) i⟩

/-- Resample axis 1 (height) to `m` samples. -/
def zoomH (m : ℕ) (v : Volume) : Volume :=
  ⟨v.w, m, v.d, fun i j k => interp1 v.h m (fun b => v.val i b k) j⟩

/-- Resample axis 2 (depth) to `m` samples. -/
def zoomD (m : ℕ) (v : Volume) : Volume :=
  ⟨v.w, v.h, m, fun i j k => interp1 v.d m (fun c => v.val i j c) k⟩

/-- Modelled from the spec: `ndimage.zoom(img, (fw, fh, fd), order=1)` —
the three axes are resampled independently by linear interpolation, to
`round(n * factor)` samples each. -/
def ndimage_zoom (fw fh fd : ℚ) (v : Volume) : Volume :=
  zoomD (outDim v.d fd) (zoomH (outDim v.h fh) (zoomW (outDim v.w fw) v))

/-- `resize_volume` from the source: compute the inverse ratio factors for
the hardcoded desired shape (128, 128, 64), rotate by 90°, then zoom. -/
def resize_volume (img : Volume) : Volume :=
  let desired_depth : ℕ := 64
  let desired_width : ℕ := 128
  let desired_height : ℕ := 128
  let depth : ℚ := (img.d : ℚ) / (desired_depth : ℚ)
  let width : ℚ := (img.w : ℚ) / (desired_width : ℚ)
  let height : ℚ := (img.h : ℚ) / (desired_height : ℚ)
  let depth_factor := 1 / depth
  let width_factor := 1 / width
  let height_factor := 1 / height
  ndimage_zoom width_factor height_factor depth_factor (ndimage_rotate90 img)

/-- `process_scan` from the source, on the already-loaded volume
(`read_nifti_file` performs file I/O and is outside the model; the claims
supply the loaded volume directly): normalize, then resize. -/
def process_scan (volume : Volume) : Volume :=
  resize_volume (normalize volume)

lemma outDim_inv (n m : ℕ) (hn : 0 < n) :
    outDim n (1 / ((n : ℚ) / (m : ℚ))) = m := by
  have hn' : (n : ℚ) ≠ 0 := Nat.cast_ne_zero.2 hn.ne'
  by_cases hm : m = 0
  · subst hm
    simp [outDim]
  · have hm' : (m : ℚ) ≠ 0 := Nat.cast_ne_zero.2 hm
    have key : (n : ℚ) * (1 / ((n : ℚ) / (m : ℚ))) = (m : ℚ) := by
      field_simp
    rw [outDim, key, round_natCast, Int.toNat_natCast]

lemma resize_volume_shape (img : Volume) (hw : 0 < img.w) (hh : 0 < img.h)
    (hd : 0 < img.d) :
    (resize_volume img).w = 128 ∧ (resize_volume img).h = 128 ∧
    (resize_volume img).d = 64 := by
  refine ⟨?_, ?_, ?_⟩ <;>
    simp only [resize_volume, ndimage_zoom, zoomW, zoomH, zoomD,
      ndimage_rotate90] <;>
    exact outDim_inv _ _ (by assumption)

/-- Every entry of `v` — at every index, in range or not — lies in
`[lo, hi]`. -/
def Volume.AllVal (v : Volume) (lo hi : ℚ) : Prop :=
  ∀ i j k, lo ≤ v.val i j k ∧ v.val i j k ≤ hi

lemma Volume.AllVal.inRange {v : Volume} {lo hi : ℚ} (h : v.AllVal lo hi) :
    v.InRange lo hi :=
  fun i _ j _ k _ => h i j k

lemma normalize_allVal (v : Volume) : (normalize v).AllVal 0 1 :=
  fun _ _ _ => ⟨normElem_nonneg _, normElem_le_one _⟩

lemma ndimage_rotate90_allVal {v : Volume} {lo hi : ℚ} (h0 : lo ≤ 0)
    (h1 : 0 ≤ hi) (hv : v.InRange lo hi) :
    (ndimage_rotate90 v).AllVal lo hi := by
  intro i j k
  show lo ≤ (if _ then _ else _) ∧ (if _ then _ else _) ≤ hi
  split_ifs with h
  · exact hv j h.2.2.1 (v.w - 1 - i) h.2.2.2.1 k h.2.2.2.2
  · exact ⟨h0, h1⟩

lemma convex_mem {t a b lo hi : ℚ} (ht0 : 0 ≤ t) (ht1 : t ≤ 1)
    (ha : lo ≤ a ∧ a ≤ hi) (hb : lo ≤ b ∧ b ≤ hi) :
    lo ≤ (1 - t) * a + t * b ∧ (1 - t) * a + t * b ≤ hi := by
  obtain ⟨ha0, ha1⟩ := ha
  obtain ⟨hb0, hb1⟩ := hb
  constructor
  · nlinarith [mul_nonneg (by linarith : (0 : ℚ) ≤ 1 - t)
        (by linarith : (0 : ℚ) ≤ a - lo),
      mul_nonneg ht0 (by linarith : (0 : ℚ) ≤ b - lo)]
  · nlinarith [mul_nonneg (by linarith : (0 : ℚ) ≤ 1 - t)
        (by linarith : (0 : ℚ) ≤ hi - a),
      mul_nonneg ht0 (by linarith : (0 : ℚ) ≤ hi - b)]

lemma interp1_mem {lo hi : ℚ} (n m j : ℕ) (f : ℕ → ℚ)
    (hf : ∀ a, lo ≤ f a ∧ f a ≤ hi) :
    lo ≤ interp1 n m f j ∧ interp1 n m f j ≤ hi := by
  unfold interp1
  have hfl : (⌊sampleCoord n m j⌋ : ℚ) ≤ sampleCoord n m j :=
    Int.floor_le _
  have hfu : sampleCoord n m j < (⌊sampleCoord n m j⌋ : ℚ) + 1 :=
    Int.lt_floor_add_one _
  exact convex_mem (by linarith) (by linarith) (hf _) (hf _)

lemma zoomW_allVal {lo hi : ℚ} (m : ℕ) {v : Volume} (hv : v.AllVal lo hi) :
    (zoomW m v).AllVal lo hi :=
  fun _ j k => interp1_mem _ _ _ _ (fun a => hv a j k)

lemma zoomH_allVal {lo hi : ℚ} (m : ℕ) {v : Volume} (hv : v.AllVal lo hi) :
    (zoomH m v).AllVal lo hi :=
  fun i _ k => interp1_mem _ _ _ _ (fun b => hv i b k)

lemma zoomD_allVal {lo hi : ℚ} (m : ℕ) {v : Volume} (hv : v.AllVal lo hi) :
    (zoomD m v).AllVal lo hi :=
  fun i j _ => interp1_mem _ _ _ _ (fun c => hv i j c)

lemma ndimage_zoom_allVal {lo hi : ℚ} (fw fh fd : ℚ) {v : Volume}
    (hv : v.AllVal lo hi) : (ndimage_zoom fw fh fd v).AllVal lo hi :=
  zoomD_allVal _ (zoomH_allVal _ (zoomW_allVal _ hv))

lemma resize_volume_allVal {lo hi : ℚ} {v : Volume} (h0 : lo ≤ 0)
    (h1 : 0 ≤ hi) (hv : v.InRange lo hi) :
    (resize_volume v).AllVal lo hi :=
  ndimage_zoom_allVal _ _ _ (ndimage_rotate90_allVal h0 h1 hv)

/-! ## Rotation augmentation (`rotate`)

```python
def rotate(volume):
    def scipy_rotate(volume):
        angles = [-20, -10, -5, 5, 10, 20]
        angle = random.choice(angles)
        volume = ndimage.rotate(volume, angle, reshape=False)
        volume[volume < 0] = 0
        volume[volume > 1] = 1
        return volume
    augmented_volume = tf.numpy_function(scipy_rotate, [volume], tf.float32)
    return augmented_volume
```
-/

/-- The candidate rotation angles of the augmentation. -/
def angles : List ℤ := [-20, -10, -5, 5, 10, 20]

/-- The elementwise action of `volume[volume < 0] = 0; volume[volume > 1] = 1`. -/
def clampElem (x : ℚ) : ℚ :=
  if (if x < 0 then 0 else x) > 1 then 1 else if x < 0 then 0 else x

/-- The two masked assignments of `scipy_rotate`, applied to every entry. -/
def clamp01 (v : Volume) : Volume :=
  { v with val := fun i j k => clampElem (v.val i j k) }

/-- `scipy_rotate` from the source.  `ndimage.rotate(volume, angle,
reshape=False)` is external library code modelled from the spec by the
parameter `rotFn` (an arbitrary-angle interpolating rotation within the
first two axes; `reshape=False` keeps the shape, which the claims assume of
`rotFn`), and the angle drawn by `random.choice(angles)` is made an explicit
argument. -/
def scipy_rotate (rotFn : ℤ → Volume → Volume) (angle : ℤ) (v : Volume) :
    Volume :=
  clamp01 (rotFn angle v)

lemma clampElem_nonneg (x : ℚ) : 0 ≤ clampElem x := by
  unfold clampElem
  split_ifs <;> linarith

lemma clampElem_le_one (x : ℚ) : clampElem x ≤ 1 := by
  unfold clampElem
  split_ifs <;> linarith

/-! ## Sample volumes used to instantiate hypotheses at concrete inputs -/

/-- A 1×1×1 volume holding the constant `-1200`. -/
def Vlow : Volume := ⟨1, 1, 1, fun _ _ _ => -1200⟩

/-- A 100×100×50 volume whose values span `[-1200, 500]`. -/
def V100 : Volume :=
  ⟨100, 100, 50, fun i _ _ => if i = 0 then -1200 else if i = 1 then 500 else 0⟩

/-- A 1×1×1 volume holding the constant `500`. -/
def Vhigh : Volume := ⟨1, 1, 1, fun _ _ _ => 500⟩

/-- A 1×1×1 volume holding the constant `0`. -/
def Vzero : Volume := ⟨1, 1, 1, fun _ _ _ => 0⟩

/-- C2: for every input volume with nonempty axes, `resize_volume` yields a
volume of shape exactly (128, 128, 64) — the configured desired width,
height and depth — regardless of the input's shape.  (An axis of zero
voxels makes the source's factor computation divide by zero and the library
call fail, so the claim is read over nonempty volumes, the spec's own
"invalid (empty) input" condition.) -/
theorem C2_resize_volume_shape (img : Volume) (hw : 0 < img.w)
    (hh : 0 < img.h) (hd : 0 < img.d) :
    (resize_volume img).w = 128 ∧ (resize_volume img).h = 128 ∧
    (resize_volume img).d = 64 :=
  resize_volume_shape img hw hh hd

/-- Witness for C2 at the concrete 100×100×50 volume `V100`. -/
theorem C2_resize_volume_shape_witness :
    (resize_volume V100).w = 128 ∧ (resize_volume V100).h = 128 ∧
    (resize_volume V100).d = 64 :=
  C2_resize_volume_shape V100 (by decide) (by decide) (by decide)

/-- C4: a volume of shape (100, 100, 50) with values in `[-1200, 500]`, sent
through the full pipeline (clip to `[-1000, 400]`, rescale, rotate, resample),
comes out with shape exactly (128, 128, 64) and all values in `[0, 1]`. -/
theorem C4_process_scan_shape_range (v : Volume) (hw : v.w = 100)
    (hh : v.h = 100) (hd : v.d = 50) (_hv : v.InRange (-1200) 500) :
    ((process_scan v).w = 128 ∧ (process_scan v).h = 128 ∧
      (process_scan v).d = 64) ∧
    (process_scan v).InRange 0 1 := by
  constructor
  · exact resize_volume_shape (normalize v) (by show 0 < v.w; omega)
      (by show 0 < v.h; omega) (by show 0 < v.d; omega)
  · exact (resize_volume_allVal (le_refl 0) (by norm_num)
      (normalize_allVal v).inRange).inRange

/-- Witness for C4 at the concrete volume `V100`, whose values span
`[-1200, 500]`. -/
theorem C4_process_scan_shape_range_witness :
    ((process_scan V100).w = 128 ∧ (process_scan V100).h = 128 ∧
      (process_scan V100).d = 64) ∧
    (process_scan V100).InRange 0 1 :=
  C4_process_scan_shape_range V100 rfl rfl rfl
    (by intro i _ j _ k _; dsimp [V100]; split_ifs <;> norm_num)

/-- C5: for every volume, every candidate angle in {-20, -10, -5, 5, 10, 20},
and every shape-preserving interpolating rotation (the library contract of
`ndimage.rotate` with `reshape=False`), the rotation augmentation yields a
volume of the input's shape whose values all lie in `[0, 1]`. -/
theorem C5_rotate_shape_range (rotFn : ℤ → Volume → Volume)
    (hrot : ∀ a u, (rotFn a u).SameShape u) (angle : ℤ)
    (_hangle : angle ∈ angles) (v : Volume) :
    (scipy_rotate rotFn angle v).SameShape v ∧
    (scipy_rotate rotFn angle v).InRange 0 1 :=
  ⟨hrot angle v,
   fun _ _ _ _ _ _ => ⟨clampElem_nonneg _, clampElem_le_one _⟩⟩

/-- Witness for C5 at the identity rotation, the angle `-20` and the
concrete volume `Vzero`. -/
theorem C5_rotate_shape_range_witness :
    (scipy_rotate (fun _ u => u) (-20) Vzero).SameShape Vzero ∧
    (scipy_rotate (fun _ u => u) (-20) Vzero).InRange 0 1 :=
  C5_rotate_shape_range (fun _ u => u) (fun _ _ => ⟨rfl, rfl, rfl⟩) (-20)
    (by decide) Vzero

/-- C1: for every input volume, `normalize` yields values in `[0, 1]`; every
entry `≤ -1000` maps to exactly `0` and every entry `≥ 400` maps to exactly
`1`. -/
theorem C1_normalize_range_and_clip (v : Volume) :
    (normalize v).InRange 0 1 ∧
    (∀ i < v.w, ∀ j < v.h, ∀ k < v.d,
      (v.val i j k ≤ -1000 → (normalize v).val i j k = 0) ∧
      (400 ≤ v.val i j k → (normalize v).val i j k = 1)) :=
  ⟨fun _ _ _ _ _ _ => ⟨normElem_nonneg _, normElem_le_one _⟩,
   fun _ _ _ _ _ _ =>
     ⟨fun h => normElem_of_le_low _ h, fun h => normElem_of_ge_high _ h⟩⟩

/-- Witness for C1 at the concrete volumes `Vlow` and `Vhigh`. -/
theorem C1_normalize_range_and_clip_witness :
    (0 ≤ (normalize Vlow).val 0 0 0 ∧ (normalize Vlow).val 0 0 0 ≤ 1) ∧
    (normalize Vlow).val 0 0 0 = 0 ∧ (normalize Vhigh).val 0 0 0 = 1 :=
  ⟨(C1_normalize_range_and_clip Vlow).1 0 (by decide) 0 (by decide) 0
      (by decide),
   ((C1_normalize_range_and_clip Vlow).2 0 (by decide) 0 (by decide) 0
      (by decide)).1 (by norm_num [Vlow]),
   ((C1_normalize_range_and_clip Vhigh).2 0 (by decide) 0 (by decide) 0
      (by decide)).2 (by norm_num [Vhigh])⟩

/-- C8 counterexample: a volume with values in `[0, 1]` and clip bounds
`[-1, 2]` widened to cover them is changed by normalization: the entry `0`
becomes `1/3`. -/
theorem C8_normalize_noop_cex :
    Vzero.InRange 0 1 ∧ Vzero.InRange (-1) 2 ∧
    normalizeWith (-1) 2 Vzero ≠ Vzero := by
  refine ⟨by decide, by decide, fun h => ?_⟩
  have h0 := congrArg (fun u => u.val 0 0 0) h
  norm_num [Vzero, normalizeWith, normElemWith] at h0

/-- C8 amended: normalization is a no-op on in-range entries exactly when the
clip bounds are `0` and `1` themselves (for a volume whose values already lie
in `[0, 1]`); merely widening the bounds to cover the value range rescales and
changes the values. -/
theorem C8_normalize_noop (v : Volume) (hv : v.InRange 0 1) :
    ∀ i < v.w, ∀ j < v.h, ∀ k < v.d,
      (normalizeWith 0 1 v).val i j k = v.val i j k := by
  intro i hi j hj k hk
  obtain ⟨h0, h1⟩ := hv i hi j hj k hk
  have hx0 : ¬ (v.val i j k < 0) := not_lt.2 h0
  have hx1 : ¬ (v.val i j k > 1) := not_lt.2 h1
  simp [normalizeWith, normElemWith, hx0, hx1]

/-- Witness for the amended C8 at the concrete volume `Vzero`. -/
theorem C8_normalize_noop_witness :
    (normalizeWith 0 1 Vzero).val 0 0 0 = Vzero.val 0 0 0 :=
  C8_normalize_noop Vzero (by decide) 0 (by decide) 0 (by decide) 0 (by decide)

/-! ## Frame-sequence pipeline (`is_completely_black`, `temp_series`)

```python
def is_completely_black(image):
    return np.all(image == 0)

temp_series = [X[n:n+ws] for n in range(0, len(X)-(2*ws)+1)
               if not any(is_completely_black(img) for img in X[n:n+ws])]
```
-/

/-- A 2-D grayscale frame: rows of pixel intensities (`cv2.imread(path, 0)`
yields 8-bit intensities, embedded as naturals). -/
abbrev Frame := List (List ℕ)

/-- `is_completely_black` from the source: `np.all(image == 0)`. -/
def is_completely_black (image : Frame) : Bool :=
  image.all (fun row => row.all (fun p => p == 0))

/-- The Python slice `X[n:n+ws]`. -/
def pySlice (X : List Frame) (n ws : ℕ) : List Frame :=
  (X.drop n).take ws

/-- The offsets `range(0, len(X) - (2*ws) + 1)` the comprehension iterates
over; Python integer arithmetic, so the range is empty whenever
`len(X) - 2*ws + 1 ≤ 0`. -/
def considered_offsets (ws : ℕ) (X : List Frame) : List ℕ :=
  List.range ((X.length : ℤ) - 2 * ws + 1).toNat

/-- The considered offsets surviving the comprehension's filter
`not any(is_completely_black(img) for img in X[n:n+ws])`. -/
def kept_offsets (ws : ℕ) (X : List Frame) : List ℕ :=
  (considered_offsets ws X).filter
    (fun n => !((pySlice X n ws).any (fun img => is_completely_black img)))

/-- `temp_series` from the source: the window `X[n:n+ws]` for every kept
offset, in order. -/
def temp_series (ws : ℕ) (X : List Frame) : List (List Frame) :=
  (kept_offsets ws X).map (fun n => pySlice X n ws)

/-- C3: every window `temp_series` produces has length exactly `ws` and
contains no completely black frame, and the offsets considered are exactly
the integer range `[0, len(X) - 2*ws + 1)`. -/
theorem C3_temp_series_windows (ws : ℕ) (X : List Frame) :
    (∀ w ∈ temp_series ws X,
      w.length = ws ∧ ∀ f ∈ w, is_completely_black f = false) ∧
    (∀ n : ℕ, n ∈ considered_offsets ws X ↔
      (n : ℤ) < (X.length : ℤ) - 2 * ws + 1) := by
  constructor
  · intro w hw
    obtain ⟨n, hn, rfl⟩ := List.mem_map.1 hw
    have hkept := List.mem_filter.1 hn
    have hrange : n < ((X.length : ℤ) - 2 * ws + 1).toNat :=
      List.mem_range.1 hkept.1
    constructor
    · have hlen : n + ws ≤ X.length := by omega
      simp [pySlice, List.length_take, List.length_drop]
      omega
    · intro f hf
      have hclean := hkept.2
      simp only [Bool.not_eq_true', Bool.not_eq_false] at hclean
      rcases hb : is_completely_black f with _ | _
      · rfl
      · exfalso
        have : (pySlice X n ws).any (fun img => is_completely_black img)
            = true := List.any_eq_true.2 ⟨f, hf, hb⟩
        rw [hclean] at this
        exact Bool.false_ne_true this
  · intro n
    rw [considered_offsets, List.mem_range]
    omega

/-- The 1×1 frame holding the pixel `1` (not black). -/
def f1 : Frame := [[1]]

/-- The 1×1 frame holding the pixel `0` (completely black). -/
def f0 : Frame := [[0]]

/-- Ten frames, all nonblack except the one at index 4. -/
def X10 : List Frame := [f1, f1, f1, f1, f0, f1, f1, f1, f1, f1]

/-- Witness for C3 at `X10`, window size 3, and the window at offset 0. -/
theorem C3_temp_series_windows_witness :
    ((pySlice X10 0 3).length = 3 ∧
      ∀ f ∈ pySlice X10 0 3, is_completely_black f = false) ∧
    (0 ∈ considered_offsets 3 X10 ↔
      (0 : ℤ) < (X10.length : ℤ) - 2 * 3 + 1) :=
  ⟨(C3_temp_series_windows 3 X10).1 (pySlice X10 0 3) (by decide),
   (C3_temp_series_windows 3 X10).2 0⟩

/-- C6 counterexample: on the ten frames of `X10` with window size 3 the
windower does NOT include the window at offset 5 — offsets 5, 6 and 7 are
outside the truncated considered range `range(10 - 6 + 1)`. -/
theorem C6_windower_example_cex : ¬ (5 ∈ kept_offsets 3 X10) := by decide

/-- C6 amended: on `X10` with window size 3 the considered offsets are
exactly 0..4, the filter drops offsets 2, 3, 4 (their windows contain the
black frame at index 4), and the windower produces exactly the windows at
offsets 0 and 1; offsets 5, 6 and 7 are never considered. -/
theorem C6_windower_example :
    considered_offsets 3 X10 = [0, 1, 2, 3, 4] ∧
    kept_offsets 3 X10 = [0, 1] ∧
    temp_series 3 X10 = [[f1, f1, f1], [f1, f1, f1]] := by decide

/-- C10: a frame list shorter than `2 * ws` yields no windows at all, even
when it holds at least `ws` nondegenerate frames. -/
theorem C10_short_list_no_windows (ws : ℕ) (X : List Frame)
    (h : X.length < 2 * ws) : temp_series ws X = [] := by
  have hz : ((X.length : ℤ) - 2 * ws + 1).toNat = 0 := by omega
  simp [temp_series, kept_offsets, considered_offsets, hz]

/-- Witness for C10: five nondegenerate frames with window size 3 (5 ≥ 3 but
5 < 6) produce no windows. -/
theorem C10_short_list_no_windows_witness :
    temp_series 3 [f1, f1, f1, f1, f1] = [] :=
  C10_short_list_no_windows 3 [f1, f1, f1, f1, f1] (by decide)

/-! ## Dataset split

```python
abnormal_labels = np.array([1 for _ in range(len(abnormal_scans))])
normal_labels = np.array([0 for _ in range(len(normal_scans))])
x_train = np.concatenate((abnormal_scans[:70], normal_scans[:70]), axis=0)
y_train = np.concatenate((abnormal_labels[:70], normal_labels[:70]), axis=0)
x_val = np.concatenate((abnormal_scans[70:], normal_scans[70:]), axis=0)
y_val = np.concatenate((abnormal_labels[70:], normal_labels[70:]), axis=0)
```
-/

/-- `abnormal_labels`: one label `1` per abnormal scan. -/
def abnormal_labels (abnormal_scans : List Volume) : List ℕ :=
  List.replicate abnormal_scans.length 1

/-- `normal_labels`: one label `0` per normal scan. -/
def normal_labels (normal_scans : List Volume) : List ℕ :=
  List.replicate normal_scans.length 0

/-- `x_train`: the first 70 abnormal scans followed by the first 70 normal
scans. -/
def x_train (abnormal_scans normal_scans : List Volume) : List Volume :=
  abnormal_scans.take 70 ++ normal_scans.take 70

/-- `y_train`: the first 70 abnormal labels followed by the first 70 normal
labels. -/
def y_train (abnormal_scans normal_scans : List Volume) : List ℕ :=
  (abnormal_labels abnormal_scans).take 70 ++
    (normal_labels normal_scans).take 70

/-- `x_val`: the abnormal scans from index 70 on, then the normal scans from
index 70 on. -/
def x_val (abnormal_scans normal_scans : List Volume) : List Volume :=
  abnormal_scans.drop 70 ++ normal_scans.drop 70

/-- `y_val`: the abnormal labels from index 70 on, then the normal labels
from index 70 on. -/
def y_val (abnormal_scans normal_scans : List Volume) : List ℕ :=
  (abnormal_labels abnormal_scans).drop 70 ++
    (normal_labels normal_scans).drop 70

lemma perm_append_middle {α : Type} (A B C D : List α) :
    ((A ++ B) ++ (C ++ D)).Perm ((A ++ C) ++ (B ++ D)) := by
  have h : ((B ++ C) ++ D).Perm ((C ++ B) ++ D) :=
    List.Perm.append_right D List.perm_append_comm
  have e1 : (A ++ B) ++ (C ++ D) = A ++ ((B ++ C) ++ D) := by
    simp [List.append_assoc]
  have e2 : A ++ ((C ++ B) ++ D) = (A ++ C) ++ (B ++ D) := by
    simp [List.append_assoc]
  rw [e1, ← e2]
  exact List.Perm.append_left A h

/-- C7: the training set is the concatenation of the first 70 examples of
each class, the validation set the concatenation of the remainders, and
together they are a permutation of the full data — simple index slicing, no
shuffling or reordering at split time. -/
theorem C7_split_by_slicing (ab no : List Volume) :
    x_train ab no = ab.take 70 ++ no.take 70 ∧
    x_val ab no = ab.drop 70 ++ no.drop 70 ∧
    (x_train ab no ++ x_val ab no).Perm (ab ++ no) := by
  refine ⟨rfl, rfl, ?_⟩
  have h := perm_append_middle (ab.take 70) (no.take 70) (ab.drop 70)
    (no.drop 70)
  rwa [List.take_append_drop, List.take_append_drop] at h

lemma rep_append_get_left {α : Type} (a b : α) (n m k : ℕ) (h : k < n) :
    (List.replicate n a ++ List.replicate m b)[k]? = some a := by
  rw [List.getElem?_append_left (by simpa using h)]
  simp [List.getElem?_replicate, h]

lemma rep_append_get_right {α : Type} (a b : α) (n m k : ℕ) (h1 : n ≤ k)
    (h2 : k < n + m) :
    (List.replicate n a ++ List.replicate m b)[k]? = some b := by
  rw [List.getElem?_append_right (by simpa using h1)]
  simp only [List.length_replicate, List.getElem?_replicate]
  rw [if_pos (by omega)]

/-- C9: the split keeps examples and labels aligned — the training (and
validation) example and label lists have equal length, and the label at an
index is `1` exactly on the abnormal-class block and `0` on the normal-class
block. -/
theorem C9_labels_aligned (ab no : List Volume) :
    (x_train ab no).length = (y_train ab no).length ∧
    (x_val ab no).length = (y_val ab no).length ∧
    (∀ i, i < (ab.take 70).length → (y_train ab no)[i]? = some 1) ∧
    (∀ i, (ab.take 70).length ≤ i → i < (x_train ab no).length →
      (y_train ab no)[i]? = some 0) ∧
    (∀ i, i < (ab.drop 70).length → (y_val ab no)[i]? = some 1) ∧
    (∀ i, (ab.drop 70).length ≤ i → i < (x_val ab no).length →
      (y_val ab no)[i]? = some 0) := by
  have hyt : y_train ab no =
      List.replicate (min 70 ab.length) 1 ++
        List.replicate (min 70 no.length) 0 := by
    simp [y_train, abnormal_labels, normal_labels, List.take_replicate]
  have hyv : y_val ab no =
      List.replicate (ab.length - 70) 1 ++
        List.replicate (no.length - 70) 0 := by
    simp [y_val, abnormal_labels, normal_labels, List.drop_replicate]
  refine ⟨?_, ?_, ?_, ?_, ?_, ?_⟩
  · simp [x_train, y_train, abnormal_labels, normal_labels]
  · simp [x_val, y_val, abnormal_labels, normal_labels]
  · intro i hi
    rw [hyt]
    exact rep_append_get_left _ _ _ _ _ (by simpa using hi)
  · intro i h1 h2
    rw [hyt]
    refine rep_append_get_right _ _ _ _ _ (by simpa using h1) ?_
    simp only [x_train, List.length_append, List.length_take] at h2
    omega
  · intro i hi
    rw [hyv]
    exact rep_append_get_left _ _ _ _ _ (by simpa using hi)
  · intro i h1 h2
    rw [hyv]
    refine rep_append_get_right _ _ _ _ _ (by simpa using h1) ?_
    simp only [x_val, List.length_append, List.length_drop] at h2
    omega

/-- Witness for C9 at one abnormal scan (`Vlow`) and one normal scan
(`Vzero`): the label at training index 0 is 1, the label at training index
1 is 0. -/
theorem C9_labels_aligned_witness :
    (y_train [Vlow] [Vzero])[0]? = some 1 ∧
    (y_train [Vlow] [Vzero])[1]? = some 0 :=
  ⟨(C9_labels_aligned [Vlow] [Vzero]).2.2.1 0 (by decide),
   (C9_labels_aligned [Vlow] [Vzero]).2.2.2.1 1 (by decide) (by decide)⟩

end NB
